import Mathlib

/-!
Shallow embedding of the free-list memory allocator in `src/alloc.c`
(functions `split`, `find_prev`, `find_next`, `remove_free_block`,
`coalesce`, `do_alloc`, `tumalloc`, `turealloc`, `tufree`).

Memory is modelled at the granularity of the 16-byte metadata records the
allocator manipulates: a cell at address `a` holds the two 8-byte words of
either a `header` (`size`, `magic`) or a `free_block` (`size`, `next`),
which overlay the same bytes in the C program, so re-typing a header as a
free node (as `tufree` does) is an update of the same cell.  Payload bytes
live in a separate byte map and are touched only by `memcpy`.  `sbrk` is
modelled as a monotonically growing break `brk` bounded by a resource
limit `limit`; fresh sbrk memory reads as zero, matching fresh anonymous
pages.  Pointers are natural numbers with `0` playing the role of `NULL`;
the managed region is `[16, brk)`, so address `0` is never readable or
writable.  Reads or writes outside the region (undefined behaviour in the
C program) yield the outcome `Res.crash`, running out of fuel in a list
traversal yields `Res.out`, and the `abort()` taken on a failed
magic-number check in `tufree` yields `Res.abort`.
-/

/-- The magic constant `0x01234567` stamped into every allocated header. -/
def MAGIC : Nat := 0x01234567

/-- Modelled from the spec: `sizeof(free_block)`.  The repository's
`alloc.h` is not among the sources; spec §3 gives the free node as
`{ size; next }`, two 8-byte fields on the LP64 target, 16 bytes. -/
def szFB : Nat := 16

/-- Modelled from the spec: `sizeof(header)`, `{ payload_size; sentinel }`,
16 bytes, consistent with the 16-byte payload alignment of spec §6. -/
def szH : Nat := 16

/-- `ALIGNMENT` from `alloc.c`. -/
def ALIGNMENT : Nat := 16

/-- The rounding `(size + ALIGNMENT - 1) & ~(ALIGNMENT - 1)` performed by
`do_alloc`, written arithmetically: clearing the low 4 bits of `n + 15`
subtracts `(n + 15) % 16`. -/
def align16 (n : Nat) : Nat := (n + 15) - (n + 15) % 16

/-- The allocator state: metadata cells, payload bytes, the free-list head
`HEAD` (`0` = `NULL`), the current program break, and the resource limit
bounding `sbrk`. -/
structure AllocState where
  mem : List (Nat × Nat × Nat)
  bytes : List (Nat × Nat)
  head : Nat
  brk : Nat
  limit : Nat
deriving Repr, DecidableEq

/-- Outcome of running an allocator operation. -/
inductive Res (α : Type) where
  | ok : α → Res α
  | crash : Res α
  | abort : Res α
  | out : Res α
deriving Repr, DecidableEq

/-- Look up a metadata cell; absent cells read as zero (fresh sbrk pages). -/
def lookupCell : List (Nat × Nat × Nat) → Nat → Nat × Nat
  | [], _ => (0, 0)
  | (b, w) :: r, a => if a = b then w else lookupCell r a

/-- Store a metadata cell. -/
def storeCell : List (Nat × Nat × Nat) → Nat → Nat × Nat → List (Nat × Nat × Nat)
  | [], a, w => [(a, w)]
  | (b, w0) :: r, a, w => if a = b then (b, w) :: r else (b, w0) :: storeCell r a w

/-- A 16-byte metadata record at `a` is addressable iff it lies inside the
managed region `[16, brk)`. -/
def validCell (st : AllocState) (a : Nat) : Prop := 16 ≤ a ∧ a + 16 ≤ st.brk

instance (st : AllocState) (a : Nat) : Decidable (validCell st a) :=
  inferInstanceAs (Decidable (16 ≤ a ∧ a + 16 ≤ st.brk))

/-- Read the two words of the record at `a` (UB outside the region). -/
def readCell (st : AllocState) (a : Nat) : Option (Nat × Nat) :=
  if validCell st a then some (lookupCell st.mem a) else none

/-- Write both words of the record at `a` (UB outside the region). -/
def writeCell (st : AllocState) (a : Nat) (w : Nat × Nat) : Option AllocState :=
  if validCell st a then some { st with mem := storeCell st.mem a w } else none

/-- Write only the first word (the `size` field) of the record at `a`. -/
def writeW0 (st : AllocState) (a v : Nat) : Option AllocState :=
  match readCell st a with
  | none => none
  | some (_, w1) => writeCell st a (v, w1)

/-- Write only the second word (the `next` / `magic` field) of the record at `a`. -/
def writeW1 (st : AllocState) (a v : Nat) : Option AllocState :=
  match readCell st a with
  | none => none
  | some (w0, _) => writeCell st a (w0, v)

/-- Transcription of `split` (alloc.c:21).  Fails (returns `NULL` = `0`)
when `block->size < size + sizeof(free_block)`; otherwise writes the new
node at `block + size + sizeof(free_block)` with the leftover size and the
old successor, shrinks `block` to `size`, and returns `block`. -/
def split (st : AllocState) (block : Nat) (size : Nat) : Res (Nat × AllocState) :=
  match readCell st block with
  | none => Res.crash
  | some (bsize, bnext) =>
    if bsize < size + szFB then Res.ok (0, st)
    else
      match writeCell st (block + size + szFB) (bsize - size - szFB, bnext) with
      | none => Res.crash
      | some st1 =>
        match writeW0 st1 block size with
        | none => Res.crash
        | some st2 => Res.ok (block, st2)

/-- Loop of `find_prev` (alloc.c:43): scan from `HEAD` for the node whose
end address `curr + curr->size + sizeof(free_block)` equals `block`. -/
def find_prevLoop (st : AllocState) (block : Nat) : Nat → Nat → Res Nat
  | 0, curr => if curr = 0 then Res.ok 0 else Res.out
  | Nat.succ f, curr =>
    if curr = 0 then Res.ok 0
    else
      match readCell st curr with
      | none => Res.crash
      | some (csize, cnext) =>
        if curr + csize + szFB = block then Res.ok curr
        else find_prevLoop st block f cnext

/-- Transcription of `find_prev` (alloc.c:43). -/
def find_prev (fuel : Nat) (st : AllocState) (block : Nat) : Res Nat :=
  find_prevLoop st block fuel st.head

/-- Loop of `find_next` (alloc.c:60): scan from `HEAD` for the node whose
start address equals `block_end`. -/
def find_nextLoop (st : AllocState) (block_end : Nat) : Nat → Nat → Res Nat
  | 0, curr => if curr = 0 then Res.ok 0 else Res.out
  | Nat.succ f, curr =>
    if curr = 0 then Res.ok 0
    else if curr = block_end then Res.ok curr
    else
      match readCell st curr with
      | none => Res.crash
      | some (_, cnext) => find_nextLoop st block_end f cnext

/-- Transcription of `find_next` (alloc.c:60). -/
def find_next (fuel : Nat) (st : AllocState) (block : Nat) : Res Nat :=
  match readCell st block with
  | none => Res.crash
  | some (bsize, _) => find_nextLoop st (block + bsize + szFB) fuel st.head

/-- Loop of `remove_free_block` (alloc.c:83): find the node whose `next`
is `block` and splice around it; falling off the end is a no-op. -/
def remove_loop (block : Nat) : Nat → AllocState → Nat → Res AllocState
  | 0, st, curr => if curr = 0 then Res.ok st else Res.out
  | Nat.succ f, st, curr =>
    if curr = 0 then Res.ok st
    else
      match readCell st curr with
      | none => Res.crash
      | some (_, cnext) =>
        if cnext = block then
          match readCell st block with
          | none => Res.crash
          | some (_, bnext) =>
            match writeW1 st curr bnext with
            | none => Res.crash
            | some st1 => Res.ok st1
        else remove_loop block f st cnext

/-- Transcription of `remove_free_block` (alloc.c:77); the head case
reassigns `HEAD` to `block->next`. -/
def remove_free_block (fuel : Nat) (st : AllocState) (block : Nat) : Res AllocState :=
  if st.head = block then
    match readCell st block with
    | none => Res.crash
    | some (_, bnext) => Res.ok { st with head := bnext }
  else remove_loop block fuel st st.head

/-- The previous-neighbour phase of `coalesce` (alloc.c:107): if `prev`
ends exactly at `block`, absorb `block` into `prev` and patch
`prev->next` only when it pointed at `block`; the merge target becomes
`prev`. -/
def coalesce_prev (st : AllocState) (block prev : Nat) : Res (Nat × AllocState) :=
  if prev = 0 then Res.ok (block, st)
  else
    match readCell st prev with
    | none => Res.crash
    | some (psize, pnext) =>
      if prev + psize + szFB = block then
        match readCell st block with
        | none => Res.crash
        | some (bsize, bnext) =>
          match writeW0 st prev (psize + bsize + szFB) with
          | none => Res.crash
          | some st1 =>
            if pnext = block then
              match writeW1 st1 prev bnext with
              | none => Res.crash
              | some st2 => Res.ok (prev, st2)
            else Res.ok (prev, st1)
      else Res.ok (block, st)

/-- The next-neighbour phase of `coalesce` (alloc.c:121): if `block` ends
exactly at `next`, absorb `next` and splice `block->next` to
`next->next`. -/
def coalesce_next (st : AllocState) (block next : Nat) : Res (Nat × AllocState) :=
  if next = 0 then Res.ok (block, st)
  else
    match readCell st block with
    | none => Res.crash
    | some (bsize, _) =>
      if block + bsize + szFB = next then
        match readCell st next with
        | none => Res.crash
        | some (nsize, nnext) =>
          match writeW0 st block (bsize + nsize + szFB) with
          | none => Res.crash
          | some st1 =>
            match writeW1 st1 block nnext with
            | none => Res.crash
            | some st2 => Res.ok (block, st2)
      else Res.ok (block, st)

/-- Transcription of `coalesce` (alloc.c:98): both neighbours are located
first, then the previous merge runs, then the next merge on the possibly
relocated block. -/
def coalesce (fuel : Nat) (st : AllocState) (block : Nat) : Res (Nat × AllocState) :=
  if block = 0 then Res.ok (0, st)
  else
    match find_prev fuel st block with
    | Res.crash => Res.crash
    | Res.abort => Res.abort
    | Res.out => Res.out
    | Res.ok prev =>
      match find_next fuel st block with
      | Res.crash => Res.crash
      | Res.abort => Res.abort
      | Res.out => Res.out
      | Res.ok next =>
        match coalesce_prev st block prev with
        | Res.crash => Res.crash
        | Res.abort => Res.abort
        | Res.out => Res.out
        | Res.ok (block1, st1) => coalesce_next st1 block1 next

/-- Transcription of `do_alloc` (alloc.c:140): reject a zero size (the only
value a `size_t` can take with `size <= 0`), round up to the alignment,
and extend the break; `sbrk` fails when the extension would exceed the
resource limit, in which case `NULL` is returned and nothing changes. -/
def do_alloc (st : AllocState) (size : Nat) : Nat × AllocState :=
  if size = 0 then (0, st)
  else if st.brk + align16 size ≤ st.limit then
    (st.brk, { st with brk := st.brk + align16 size })
  else (0, st)

/-- Header stamping after the unchecked `do_alloc` of `tumalloc`'s
fallback (alloc.c:207): write the payload size and the magic constant
through the returned pointer; a failed `do_alloc` leads straight to a
write through address `0`. -/
def tumallocStamp : Nat × AllocState → Nat → Res (Nat × AllocState)
  | (raw, st0), size =>
    match writeCell st0 raw (size, MAGIC) with
    | none => Res.crash
    | some st1 => Res.ok (raw + szH, st1)

/-- The fallback at the end of `tumalloc`'s non-empty-list branch
(alloc.c:205): request fresh memory and stamp the header through the
result with no `NULL` check. -/
def tumallocFallback (st : AllocState) (size : Nat) : Res (Nat × AllocState) :=
  tumallocStamp (do_alloc st (size + szH)) size

/-- The first-fit scan of `tumalloc` (alloc.c:186): on the first block with
`size + sizeof(header) <= block->size`, try `split`; if it failed, remove
the whole block and use it, otherwise remove the returned first piece;
stamp the header and return the payload pointer.  Falling off the list
runs the unchecked fallback. -/
def tumallocLoop (size : Nat) : Nat → AllocState → Nat → Res (Nat × AllocState)
  | 0, st, block => if block = 0 then tumallocFallback st size else Res.out
  | Nat.succ f, st, block =>
    if block = 0 then tumallocFallback st size
    else
      match readCell st block with
      | none => Res.crash
      | some (bsize, bnext) =>
        if size + szH ≤ bsize then
          match split st block (size + szH) with
          | Res.crash => Res.crash
          | Res.abort => Res.abort
          | Res.out => Res.out
          | Res.ok (hdrp, st1) =>
            if hdrp = 0 then
              match remove_free_block (Nat.succ f) st1 block with
              | Res.crash => Res.crash
              | Res.abort => Res.abort
              | Res.out => Res.out
              | Res.ok st2 =>
                match writeCell st2 block (size, MAGIC) with
                | none => Res.crash
                | some st3 => Res.ok (block + szH, st3)
            else
              match remove_free_block (Nat.succ f) st1 hdrp with
              | Res.crash => Res.crash
              | Res.abort => Res.abort
              | Res.out => Res.out
              | Res.ok st2 =>
                match writeCell st2 hdrp (size, MAGIC) with
                | none => Res.crash
                | some st3 => Res.ok (hdrp + szH, st3)
        else tumallocLoop size f st bnext

/-- Transcription of `tumalloc` (alloc.c:165): empty free list requests
`size + sizeof(header)` fresh bytes (with a `NULL` check), otherwise the
first-fit scan runs. -/
def tumallocFresh : Nat × AllocState → Nat → Res (Nat × AllocState)
  | (raw, st0), size =>
    if raw = 0 then Res.ok (0, st0)
    else
      match writeCell st0 raw (size, MAGIC) with
      | none => Res.crash
      | some st1 => Res.ok (raw + szH, st1)

/-- Transcription of `tumalloc` (alloc.c:165): empty free list requests
`size + sizeof(header)` fresh bytes through `do_alloc`, otherwise the
first-fit scan runs. -/
def tumalloc (fuel : Nat) (st : AllocState) (size : Nat) : Res (Nat × AllocState) :=
  if st.head = 0 then tumallocFresh (do_alloc st (size + szH)) size
  else tumallocLoop size fuel st st.head

/-- Body of `tufree` (alloc.c:291) after the header address
`hdrA = ptr - sizeof(header)` has been formed: on a matching magic number,
re-type it as a free node (`size` keeps the header's payload size, `next`
becomes the old `HEAD`), push it at the head and coalesce; otherwise
report corruption and abort. -/
def tufreeHdr (fuel : Nat) (st : AllocState) (hdrA : Nat) : Res AllocState :=
  match readCell st hdrA with
  | none => Res.crash
  | some (hsize, hmagic) =>
    if hmagic = MAGIC then
      match writeCell st hdrA (hsize, st.head) with
      | none => Res.crash
      | some st1 =>
        match coalesce fuel { st1 with head := hdrA } hdrA with
        | Res.crash => Res.crash
        | Res.abort => Res.abort
        | Res.out => Res.out
        | Res.ok (_, st3) => Res.ok st3
    else Res.abort

/-- Transcription of `tufree` (alloc.c:291), entry point: the header
address is `ptr - sizeof(header)`, computed with no null check on `ptr`. -/
def tufree (fuel : Nat) (st : AllocState) (ptr : Nat) : Res AllocState :=
  tufreeHdr fuel st (ptr - szH)

/-- Look up a payload byte; absent bytes read as zero. -/
def lookupByte : List (Nat × Nat) → Nat → Nat
  | [], _ => 0
  | (b, v) :: r, a => if a = b then v else lookupByte r a

/-- Store a payload byte. -/
def storeByte : List (Nat × Nat) → Nat → Nat → List (Nat × Nat)
  | [], a, v => [(a, v)]
  | (b, w) :: r, a, v => if a = b then (b, v) :: r else (b, w) :: storeByte r a v

/-- Copy one payload byte from `src` to `dst`. -/
def copyByte (st : AllocState) (dst src : Nat) : AllocState :=
  { st with bytes := storeByte st.bytes dst (lookupByte st.bytes src) }

/-- Byte-by-byte `memcpy(dst, src, n)` over the payload byte map. -/
def memcpy (st : AllocState) (dst src : Nat) : Nat → AllocState
  | 0 => st
  | Nat.succ n => copyByte (memcpy st dst src n) (dst + n) (src + n)

/-- Transcription of `turealloc` (alloc.c:252): `NULL` delegates to
`tumalloc`, size `0` delegates to `tufree` and returns `NULL`; otherwise
the old header's size is read (no magic check), a large enough block is
returned unchanged, and a growing request allocates afresh and copies
`old < new ? old : new` bytes. -/
def turealloc (fuel : Nat) (st : AllocState) (ptr new_size : Nat) : Res (Nat × AllocState) :=
  if ptr = 0 then tumalloc fuel st new_size
  else if new_size = 0 then
    match tufree fuel st ptr with
    | Res.crash => Res.crash
    | Res.abort => Res.abort
    | Res.out => Res.out
    | Res.ok st1 => Res.ok (0, st1)
  else
    match readCell st (ptr - szH) with
    | none => Res.crash
    | some (osize, _) =>
      if new_size ≤ osize then Res.ok (ptr, st)
      else
        match tumalloc fuel st new_size with
        | Res.crash => Res.crash
        | Res.abort => Res.abort
        | Res.out => Res.out
        | Res.ok (np, st1) =>
          if np = 0 then Res.ok (0, st1)
          else Res.ok (np, memcpy st1 np ptr (if osize < new_size then osize else new_size))

/-- The addresses of the free-list nodes reachable from `p` by following
`next` links, observed with the given fuel. -/
def chainR (st : AllocState) : Nat → Nat → Option (List Nat)
  | 0, p => if p = 0 then some [] else none
  | Nat.succ f, p =>
    if p = 0 then some []
    else
      match readCell st p with
      | none => none
      | some (_, nxt) =>
        match chainR st f nxt with
        | none => none
        | some l => some (p :: l)

/-- The allocator's initial state: empty free list, no memory carved yet,
the break at the region base `16`, and a given `sbrk` resource limit. -/
def initState (limit : Nat) : AllocState := ⟨[], [], 0, 16, limit⟩

/-! ## General lemmas about the embedding -/

theorem lookupCell_store_self (m : List (Nat × Nat × Nat)) (a : Nat) (w : Nat × Nat) :
  lookupCell (storeCell m a w) a = w := by
  induction m with
  | nil => simp [storeCell, lookupCell]
  | cons hd tl ih =>
    obtain ⟨b, w0⟩ := hd
    by_cases hab : a = b
    · subst hab
      simp [storeCell, lookupCell]
    · simp [storeCell, lookupCell, hab, Ne.symm hab, ih]

theorem lookupCell_store_ne (m : List (Nat × Nat × Nat)) (p a : Nat) (w : Nat × Nat)
    (h : a ≠ p) : lookupCell (storeCell m p w) a = lookupCell m a := by
  induction m with
  | nil => simp [storeCell, lookupCell, h]
  | cons hd tl ih =>
    obtain ⟨b, w0⟩ := hd
    by_cases hpb : p = b
    · subst hpb
      simp [storeCell, lookupCell, h]
    · by_cases hab : a = b
      · subst hab
        simp [storeCell, lookupCell, hpb]
      · simp [storeCell, lookupCell, hpb, hab, ih]

theorem readCell_some_valid {st : AllocState} {a : Nat} {w : Nat × Nat}
    (h : readCell st a = some w) : validCell st a := by
  by_cases hv : validCell st a
  · exact hv
  · simp [readCell, hv] at h

theorem readCell_some_lookup {st : AllocState} {a : Nat} {w : Nat × Nat}
    (h : readCell st a = some w) : lookupCell st.mem a = w := by
  by_cases hv : validCell st a
  · simpa [readCell, hv] using h
  · simp [readCell, hv] at h

theorem align16_ge (n : Nat) : n ≤ align16 n := by
  unfold align16; omega

theorem align16_lt (n : Nat) : align16 n < n + 16 := by
  unfold align16; omega

theorem align16_dvd (n : Nat) : 16 ∣ align16 n := by
  refine ⟨(n + 15) / 16, ?_⟩
  unfold align16; omega

theorem align16_of_dvd {n : Nat} (h : 16 ∣ n) : align16 n = n := by
  obtain ⟨k, rfl⟩ := h
  unfold align16; omega

/-! ## Claim theorems -/

/-- C10: `tufree` (release) reads the header at `ptr - sizeof(header)`
unconditionally, with no null check; called on the null pointer it does
not return as a no-op but reads from an invalid address, which in this
embedding fails as `Res.crash`, for every allocator state and fuel. -/
theorem tufree_null_crashes (fuel : Nat) (st : AllocState) :
    tufree fuel st 0 = Res.crash := by
  have h : readCell st 0 = none := by
    simp [readCell, validCell]
  show tufreeHdr fuel st (0 - szH) = Res.crash
  rw [show (0 : Nat) - szH = 0 from rfl]
  simp only [tufreeHdr, h]

/-- C4 (refuting evaluation): `allocate(0)` on the empty free list does
not return null: `do_alloc(0 + sizeof(header))` succeeds, a header of
payload size `0` is stamped, and the non-null pointer `32` is returned. -/
theorem tumalloc_zero_size_returns_non_null :
    tumalloc 20 (initState 100) 0 =
      Res.ok (32, AllocState.mk [(16, 0, MAGIC)] [] 0 32 100) ∧ (32 : Nat) ≠ 0 := by
  constructor
  · decide
  · decide

/-- C3 (refuting evaluation): with a non-empty free list holding one
16-byte node and no block large enough for `allocate(17)`, the fallback
calls `do_alloc(17 + 16)`; the `sbrk` limit of 48 makes it fail, and the
code stamps the header through the null result, which is a crash
(undefined behaviour), not a null return with consistent state. -/
theorem tumalloc_fallback_crashes_on_sbrk_failure :
    tumalloc 20 (initState 48) 16 =
      Res.ok (32, AllocState.mk [(16, 16, MAGIC)] [] 0 48 48) ∧
    tufree 20 (AllocState.mk [(16, 16, MAGIC)] [] 0 48 48) 32 =
      Res.ok (AllocState.mk [(16, 16, 0)] [] 16 48 48) ∧
    tumalloc 20 (AllocState.mk [(16, 16, 0)] [] 16 48 48) 17 = Res.crash := by
  refine ⟨by decide, by decide, by decide⟩

/-- C2 (refuting evaluation): allocating 16 bytes from a free list whose
single node at 16 has size 64 makes `split` succeed and write the
remainder node of size 16 at address 64; `remove_free_block` then sets
`HEAD` to the original node's successor (null), so after `tumalloc`
returns the remainder is not reachable from the list head (the chain is
empty) even though its node sits in memory. -/
theorem split_remainder_lost_from_free_list :
    tumalloc 20 (initState 200) 64 =
      Res.ok (32, AllocState.mk [(16, 64, MAGIC)] [] 0 96 200) ∧
    tufree 20 (AllocState.mk [(16, 64, MAGIC)] [] 0 96 200) 32 =
      Res.ok (AllocState.mk [(16, 64, 0)] [] 16 96 200) ∧
    tumalloc 20 (AllocState.mk [(16, 64, 0)] [] 16 96 200) 16 =
      Res.ok (32, AllocState.mk [(16, 16, MAGIC), (64, 16, 0)] [] 0 96 200) ∧
    lookupCell [(16, 16, MAGIC), (64, 16, 0)] 64 = (16, 0) ∧
    chainR (AllocState.mk [(16, 16, MAGIC), (64, 16, 0)] [] 0 96 200) 10 0 = some [] := by
  refine ⟨by decide, by decide, by decide, by decide, by decide⟩

/-- C1 (counterexample): `p = allocate(16)` from the initial state returns
address 32; after `release(p)` the freed node records only the payload
size 16, so the subsequent `allocate(16)` needs `16 + 16 ≤ 16`, does not
reuse the node, grows the region from 48 to 80 and returns the different
address 64. -/
theorem no_reuse_at_same_size_counterexample :
    tumalloc 20 (initState 200) 16 =
      Res.ok (32, AllocState.mk [(16, 16, MAGIC)] [] 0 48 200) ∧
    tufree 20 (AllocState.mk [(16, 16, MAGIC)] [] 0 48 200) 32 =
      Res.ok (AllocState.mk [(16, 16, 0)] [] 16 48 200) ∧
    tumalloc 20 (AllocState.mk [(16, 16, 0)] [] 16 48 200) 16 =
      Res.ok (64, AllocState.mk [(16, 16, 0), (48, 16, MAGIC)] [] 16 80 200) ∧
    (64 : Nat) ≠ 32 ∧ (80 : Nat) ≠ 48 := by
  refine ⟨by decide, by decide, by decide, by decide, by decide⟩

/-- C5 (counterexample): two address-adjacent 16-byte blocks at 16 and 48
are released lower-address-first; coalescing the second release merges
the sizes into the node at 16 (size 48) but never repairs `HEAD`, which
still points at the absorbed node 48, so the free list holds two entries
`[48, 16]`, not a single merged one. -/
theorem coalesce_leaves_stale_head_counterexample :
    tumalloc 20 (initState 200) 16 =
      Res.ok (32, AllocState.mk [(16, 16, MAGIC)] [] 0 48 200) ∧
    tumalloc 20 (AllocState.mk [(16, 16, MAGIC)] [] 0 48 200) 16 =
      Res.ok (64, AllocState.mk [(16, 16, MAGIC), (48, 16, MAGIC)] [] 0 80 200) ∧
    tufree 20 (AllocState.mk [(16, 16, MAGIC), (48, 16, MAGIC)] [] 0 80 200) 32 =
      Res.ok (AllocState.mk [(16, 16, 0), (48, 16, MAGIC)] [] 16 80 200) ∧
    tufree 20 (AllocState.mk [(16, 16, 0), (48, 16, MAGIC)] [] 16 80 200) 64 =
      Res.ok (AllocState.mk [(16, 48, 0), (48, 16, 16)] [] 48 80 200) ∧
    chainR (AllocState.mk [(16, 48, 0), (48, 16, 16)] [] 48 80 200) 10 48 =
      some [48, 16] ∧
    ([48, 16] : List Nat).length = 2 := by
  refine ⟨by decide, by decide, by decide, by decide, by decide, by decide⟩

/-- C9: `resize` delegates exactly: `turealloc(null, s)` is the very same
computation as `tumalloc(s)`, and for non-null `p`, `turealloc(p, 0)`
performs `tufree(p)` and returns null alongside the state `tufree`
produced (crash/abort outcomes propagate unchanged). -/
theorem turealloc_delegates (fuel : Nat) (st : AllocState) (s p : Nat) (hp : p ≠ 0) :
    turealloc fuel st 0 s = tumalloc fuel st s ∧
    turealloc fuel st p 0 =
      (match tufree fuel st p with
       | Res.crash => Res.crash
       | Res.abort => Res.abort
       | Res.out => Res.out
       | Res.ok st1 => Res.ok (0, st1)) := by
  constructor
  · simp [turealloc]
  · simp [turealloc, hp]

/-- C9 witness: the delegation equations evaluated at a concrete state:
releasing through `turealloc(p, 0)` yields null plus exactly the state
`tufree` produces. -/
theorem turealloc_delegates_witness :
    (32 : Nat) ≠ 0 ∧
    turealloc 20 (AllocState.mk [(16, 16, MAGIC)] [] 0 48 200) 32 0 =
      Res.ok (0, AllocState.mk [(16, 16, 0)] [] 16 48 200) := by
  refine ⟨by decide, ?_⟩
  rw [(turealloc_delegates 20 (AllocState.mk [(16, 16, MAGIC)] [] 0 48 200) 0 32
    (by decide)).2]
  decide

/-- Evaluation of `split` on a readable block: failure exactly when the
block is too small, and the two-write success state otherwise. -/
theorem split_eval (st : AllocState) (block n S nxt : Nat)
    (hb : readCell st block = some (S, nxt)) :
    (split st block n = Res.ok (0, st) ↔ S < n + szFB) ∧
    (n + szFB ≤ S → validCell st (block + n + szFB) →
      split st block n = Res.ok (block,
        { st with
          mem := storeCell (storeCell st.mem (block + n + szFB) (S - n - szFB, nxt)) block (n, nxt) })) := by
  have hfb : szFB = 16 := rfl
  have hvb : validCell st block := readCell_some_valid hb
  have hb0 : block ≠ 0 := by
    rcases hvb with ⟨h1, _⟩
    omega
  constructor
  · constructor
    · intro h
      by_contra hlt
      push_neg at hlt
      simp only [split, hb] at h
      rw [if_neg (by omega)] at h
      rcases hw : writeCell st (block + n + szFB) (S - n - szFB, nxt) with _ | st1
      · simp only [hw] at h
        exact Res.noConfusion h
      · simp only [hw] at h
        rcases hw0 : writeW0 st1 block n with _ | st2
        · simp only [hw0] at h
          exact Res.noConfusion h
        · simp only [hw0, Res.ok.injEq, Prod.mk.injEq] at h
          exact hb0 h.1
    · intro h
      simp only [split, hb]
      rw [if_pos (by omega)]
  · intro hle hv
    simp only [split, hb]
    rw [if_neg (by omega)]
    have hw : writeCell st (block + n + szFB) (S - n - szFB, nxt) =
        some { st with mem := storeCell st.mem (block + n + szFB) (S - n - szFB, nxt) } := by
      simp only [writeCell]
      rw [if_pos hv]
    rw [hw]
    have hvb1 :
        validCell { st with mem := storeCell st.mem (block + n + szFB) (S - n - szFB, nxt) } block := by
      rcases hvb with ⟨h1, h2⟩
      exact ⟨h1, h2⟩
    have hne : block ≠ block + n + szFB := by omega
    have hr1 :
        readCell { st with mem := storeCell st.mem (block + n + szFB) (S - n - szFB, nxt) } block =
          some (S, nxt) := by
      simp only [readCell]
      rw [if_pos hvb1, lookupCell_store_ne _ _ _ _ hne]
      exact congrArg some (readCell_some_lookup hb)
    simp only [writeW0, hr1, writeCell]
    rw [if_pos hvb1]

/-- C7: `split(block, n)` on a free block of recorded total size `S`
succeeds exactly when `S ≥ n + sizeof(free_block)`; on failure it returns
the null indicator with the state untouched, and on success it returns
the original block, now shrunk to size `n`, with a new free node of size
`S - n - sizeof(free_block)` at the offset immediately following the
first piece whose successor link is the block's old successor. -/
theorem split_spec (st : AllocState) (block n S nxt : Nat)
    (hb : readCell st block = some (S, nxt)) :
    (split st block n = Res.ok (0, st) ↔ S < n + szFB) ∧
    (n + szFB ≤ S → validCell st (block + n + szFB) →
      split st block n = Res.ok (block,
        { st with
          mem := storeCell (storeCell st.mem (block + n + szFB) (S - n - szFB, nxt)) block (n, nxt) })) :=
  split_eval st block n S nxt hb

/-- C7 witness: a free block of size 64 at address 16 split for a first
piece of 32 leaves the shrunk block and a new node of size 16 at 64. -/
theorem split_spec_witness :
    readCell (AllocState.mk [(16, 64, 0)] [] 16 96 100) 16 = some (64, 0) ∧
    32 + szFB ≤ 64 ∧
    validCell (AllocState.mk [(16, 64, 0)] [] 16 96 100) (16 + 32 + szFB) ∧
    split (AllocState.mk [(16, 64, 0)] [] 16 96 100) 16 32 =
      Res.ok (16, AllocState.mk [(16, 32, 0), (64, 16, 0)] [] 16 96 100) := by
  refine ⟨by decide, by decide, by decide, ?_⟩
  have h := (split_spec (AllocState.mk [(16, 64, 0)] [] 16 96 100) 16 32 64 0
    (by decide)).2 (by decide) (by decide)
  exact h.trans (by decide)

/-! ## Lemmas about allocation outcomes -/


theorem do_alloc_success {st : AllocState} {n : Nat} (hn : n ≠ 0)
    (hL : st.brk + align16 n ≤ st.limit) :
    do_alloc st n = (st.brk, { st with brk := st.brk + align16 n }) := by
  simp only [do_alloc]
  rw [if_neg hn, if_pos hL]

theorem do_alloc_fail {st : AllocState} {n : Nat} (hn : n ≠ 0)
    (hL : ¬ st.brk + align16 n ≤ st.limit) :
    do_alloc st n = (0, st) := by
  simp only [do_alloc]
  rw [if_neg hn, if_neg hL]

theorem tumallocFallback_ok_ne_null {st : AllocState} {s z : Nat} {st' : AllocState}
    (h : tumallocFallback st s = Res.ok (z, st')) : z ≠ 0 := by
  have hfb : szH = 16 := rfl
  rw [tumallocFallback] at h
  by_cases hL : st.brk + align16 (s + szH) ≤ st.limit
  · rw [do_alloc_success (by omega) hL] at h
    simp only [tumallocStamp] at h
    rcases hw : writeCell { st with brk := st.brk + align16 (s + szH) } st.brk (s, MAGIC)
      with _ | st1
    · simp only [hw] at h
      exact Res.noConfusion h
    · simp only [hw, Res.ok.injEq, Prod.mk.injEq] at h
      omega
  · rw [do_alloc_fail (by omega) hL] at h
    simp only [tumallocStamp] at h
    have hw : writeCell st 0 (s, MAGIC) = none := by
      simp [writeCell, validCell]
    simp only [hw] at h
    exact Res.noConfusion h

theorem tumallocLoop_ok_ne_null (s : Nat) :
    ∀ (f : Nat) (st : AllocState) (b z : Nat) (st' : AllocState),
      tumallocLoop s f st b = Res.ok (z, st') → z ≠ 0 := by
  intro f
  induction f with
  | zero =>
    intro st b z st' h
    simp only [tumallocLoop] at h
    by_cases hb : b = 0
    · rw [if_pos hb] at h
      exact tumallocFallback_ok_ne_null h
    · rw [if_neg hb] at h
      exact Res.noConfusion h
  | succ f ih =>
    intro st b z st' h
    simp only [tumallocLoop] at h
    by_cases hb : b = 0
    · rw [if_pos hb] at h
      exact tumallocFallback_ok_ne_null h
    · rw [if_neg hb] at h
      rcases hr : readCell st b with _ | ⟨bsize, bnext⟩
      · simp only [hr] at h
        exact Res.noConfusion h
      · simp only [hr] at h
        by_cases hfit : s + szH ≤ bsize
        · rw [if_pos hfit] at h
          rcases hs : split st b (s + szH) with ⟨hdrp, st1⟩ | _ | _ | _ <;>
            simp only [hs] at h
          · by_cases hz : hdrp = 0
            · rw [if_pos hz] at h
              rcases hrm : remove_free_block (Nat.succ f) st1 b with st2 | _ | _ | _ <;>
                simp only [hrm] at h
              · rcases hwc : writeCell st2 b (s, MAGIC) with _ | st3 <;>
                  simp only [hwc] at h
                · exact Res.noConfusion h
                · simp only [Res.ok.injEq, Prod.mk.injEq] at h
                  have hx : szH = 16 := rfl
                  omega
              · exact Res.noConfusion h
              · exact Res.noConfusion h
              · exact Res.noConfusion h
            · rw [if_neg hz] at h
              rcases hrm : remove_free_block (Nat.succ f) st1 hdrp with st2 | _ | _ | _ <;>
                simp only [hrm] at h
              · rcases hwc : writeCell st2 hdrp (s, MAGIC) with _ | st3 <;>
                  simp only [hwc] at h
                · exact Res.noConfusion h
                · simp only [Res.ok.injEq, Prod.mk.injEq] at h
                  have hx : szH = 16 := rfl
                  omega
              · exact Res.noConfusion h
              · exact Res.noConfusion h
              · exact Res.noConfusion h
          · exact Res.noConfusion h
          · exact Res.noConfusion h
          · exact Res.noConfusion h
        · rw [if_neg hfit] at h
          exact ih st bnext z st' h

theorem tumalloc_null_state {fuel : Nat} {st : AllocState} {s : Nat} {st' : AllocState}
    (hbrk : 0 < st.brk) (h : tumalloc fuel st s = Res.ok (0, st')) : st' = st := by
  have hx : szH = 16 := rfl
  simp only [tumalloc] at h
  by_cases hh : st.head = 0
  · rw [if_pos hh] at h
    by_cases hL : st.brk + align16 (s + szH) ≤ st.limit
    · rw [do_alloc_success (by omega) hL] at h
      simp only [tumallocFresh] at h
      rw [if_neg (by omega)] at h
      rcases hw : writeCell { st with brk := st.brk + align16 (s + szH) } st.brk (s, MAGIC)
        with _ | st1
      · simp only [hw] at h
        exact Res.noConfusion h
      · simp only [hw, Res.ok.injEq, Prod.mk.injEq] at h
        omega
    · rw [do_alloc_fail (by omega) hL] at h
      simp only [tumallocFresh] at h
      rw [if_pos trivial] at h
      simp only [Res.ok.injEq, Prod.mk.injEq] at h
      exact h.2.symm
  · rw [if_neg hh] at h
    exact absurd rfl (tumallocLoop_ok_ne_null s fuel st st.head 0 st' h)

/-- C8: for non-null `p` with a readable header and `newSize > 0`,
`turealloc` returns `p` with the state untouched when the recorded
payload size is at least `newSize`; otherwise it allocates afresh, and a
null fresh allocation propagates as a null return with the state exactly
as before, while a successful one returns the new pointer with
`min(old payload size, newSize)` bytes of the old payload copied over. -/
theorem turealloc_spec (fuel : Nat) (st : AllocState) (p n osize m : Nat)
    (hp : p ≠ 0) (hn : 0 < n)
    (hhdr : readCell st (p - szH) = some (osize, m)) :
    (n ≤ osize → turealloc fuel st p n = Res.ok (p, st)) ∧
    (osize < n →
      (∀ st1, tumalloc fuel st n = Res.ok (0, st1) →
        turealloc fuel st p n = Res.ok (0, st1) ∧ st1 = st) ∧
      (∀ np st1, tumalloc fuel st n = Res.ok (np, st1) → np ≠ 0 →
        turealloc fuel st p n = Res.ok (np, memcpy st1 np p (min osize n)))) := by
  have hbrk : 0 < st.brk := by
    have hv := readCell_some_valid hhdr
    rcases hv with ⟨h1, h2⟩
    omega
  have hn0 : n ≠ 0 := by omega
  constructor
  · intro hle
    simp only [turealloc, hhdr]
    rw [if_neg hp, if_neg hn0, if_pos hle]
  · intro hlt
    constructor
    · intro st1 heq
      refine ⟨?_, tumalloc_null_state hbrk heq⟩
      simp only [turealloc, hhdr, heq]
      rw [if_neg hp, if_neg hn0, if_neg (by omega)]
      rw [if_pos trivial]
    · intro np st1 heq hnp
      simp only [turealloc, hhdr, heq]
      rw [if_neg hp, if_neg hn0, if_neg (by omega), if_neg hnp, if_pos hlt]
      rw [Nat.min_eq_left (Nat.le_of_lt hlt)]

theorem split_ok_ptr {st : AllocState} {block size q : Nat} {st' : AllocState}
    (h : split st block size = Res.ok (q, st')) : q = 0 ∨ q = block := by
  simp only [split] at h
  rcases hr : readCell st block with _ | ⟨bsize, bnext⟩ <;> simp only [hr] at h
  · exact Res.noConfusion h
  · by_cases hlt : bsize < size + szFB
    · rw [if_pos hlt] at h
      simp only [Res.ok.injEq, Prod.mk.injEq] at h
      exact Or.inl h.1.symm
    · rw [if_neg hlt] at h
      rcases hw : writeCell st (block + size + szFB) (bsize - size - szFB, bnext)
        with _ | st1 <;> simp only [hw] at h
      · exact Res.noConfusion h
      · rcases hw0 : writeW0 st1 block size with _ | st2 <;> simp only [hw0] at h
        · exact Res.noConfusion h
        · simp only [Res.ok.injEq, Prod.mk.injEq] at h
          exact Or.inr h.1.symm

theorem tumallocFallback_ok_addr {st : AllocState} {s z : Nat} {st' : AllocState}
    (h : tumallocFallback st s = Res.ok (z, st')) : z = st.brk + szH := by
  have hx : szH = 16 := rfl
  rw [tumallocFallback] at h
  by_cases hL : st.brk + align16 (s + szH) ≤ st.limit
  · rw [do_alloc_success (by omega) hL] at h
    simp only [tumallocStamp] at h
    rcases hw : writeCell { st with brk := st.brk + align16 (s + szH) } st.brk (s, MAGIC)
      with _ | st1 <;> simp only [hw] at h
    · exact Res.noConfusion h
    · simp only [Res.ok.injEq, Prod.mk.injEq] at h
      exact h.1.symm
  · rw [do_alloc_fail (by omega) hL] at h
    simp only [tumallocStamp] at h
    have hw : writeCell st 0 (s, MAGIC) = none := by
      simp [writeCell, validCell]
    simp only [hw] at h
    exact Res.noConfusion h

theorem tumallocLoop_aligned (s : Nat) (st : AllocState) (hbrk : 16 ∣ st.brk) :
    ∀ (f2 b f1 : Nat) (l : List Nat) (z : Nat) (st' : AllocState),
      chainR st f1 b = some l → (∀ a ∈ l, 16 ∣ a) →
      tumallocLoop s f2 st b = Res.ok (z, st') → 16 ∣ z := by
  have hx : szH = 16 := rfl
  intro f2
  induction f2 with
  | zero =>
    intro b f1 l z st' hc ha h
    simp only [tumallocLoop] at h
    by_cases hb : b = 0
    · rw [if_pos hb] at h
      rw [tumallocFallback_ok_addr h]
      omega
    · rw [if_neg hb] at h
      exact Res.noConfusion h
  | succ f ih =>
    intro b f1 l z st' hc ha h
    simp only [tumallocLoop] at h
    by_cases hb : b = 0
    · rw [if_pos hb] at h
      rw [tumallocFallback_ok_addr h]
      omega
    · rw [if_neg hb] at h
      rcases f1 with _ | g
      · simp only [chainR] at hc
        rw [if_neg hb] at hc
        exact Option.noConfusion hc
      · simp only [chainR] at hc
        rw [if_neg hb] at hc
        rcases hr : readCell st b with _ | ⟨bsize, bnext⟩ <;> simp only [hr] at hc h
        · exact Option.noConfusion hc
        · rcases hcg : chainR st g bnext with _ | l' <;> simp only [hcg] at hc
          · exact Option.noConfusion hc
          · injection hc with hc'
            subst hc'
            have hbdvd : 16 ∣ b := ha b (List.mem_cons_self b l')
            have hl' : ∀ a ∈ l', 16 ∣ a := by
              intro a hal
              exact ha a (List.mem_cons_of_mem b hal)
            by_cases hfit : s + szH ≤ bsize
            · rw [if_pos hfit] at h
              rcases hs : split st b (s + szH) with ⟨hdrp, st1⟩ | _ | _ | _ <;>
                simp only [hs] at h
              · by_cases hz0 : hdrp = 0
                · rw [if_pos hz0] at h
                  rcases hrm : remove_free_block (Nat.succ f) st1 b with st2 | _ | _ | _ <;>
                    simp only [hrm] at h
                  · rcases hwc : writeCell st2 b (s, MAGIC) with _ | st3 <;>
                      simp only [hwc] at h
                    · exact Res.noConfusion h
                    · simp only [Res.ok.injEq, Prod.mk.injEq] at h
                      rw [← h.1]
                      omega
                  · exact Res.noConfusion h
                  · exact Res.noConfusion h
                  · exact Res.noConfusion h
                · rw [if_neg hz0] at h
                  have hdb : hdrp = b := by
                    rcases split_ok_ptr hs with h0 | hb1
                    · exact absurd h0 hz0
                    · exact hb1
                  subst hdb
                  rcases hrm : remove_free_block (Nat.succ f) st1 hdrp with st2 | _ | _ | _ <;>
                    simp only [hrm] at h
                  · rcases hwc : writeCell st2 hdrp (s, MAGIC) with _ | st3 <;>
                      simp only [hwc] at h
                    · exact Res.noConfusion h
                    · simp only [Res.ok.injEq, Prod.mk.injEq] at h
                      rw [← h.1]
                      omega
                  · exact Res.noConfusion h
                  · exact Res.noConfusion h
                  · exact Res.noConfusion h
              · exact Res.noConfusion h
              · exact Res.noConfusion h
              · exact Res.noConfusion h
            · rw [if_neg hfit] at h
              exact ih bnext g l' z st' hcg hl' h

/-- C6: whenever the break and every node of the free-list chain are
16-byte aligned, a successful `tumalloc` (fresh-region path, free-list
reuse with split, or reuse without split) returns a 16-byte-aligned
pointer. -/
theorem tumalloc_returns_aligned (fuel1 fuel2 : Nat) (st : AllocState) (s z : Nat)
    (st' : AllocState) (l : List Nat)
    (hbrk : 16 ∣ st.brk) (hchain : chainR st fuel1 st.head = some l)
    (halign : ∀ a ∈ l, 16 ∣ a) (hs : 0 < s)
    (hrun : tumalloc fuel2 st s = Res.ok (z, st')) (hz : z ≠ 0) : 16 ∣ z := by
  have hx : szH = 16 := rfl
  simp only [tumalloc] at hrun
  by_cases hh : st.head = 0
  · rw [if_pos hh] at hrun
    by_cases hL : st.brk + align16 (s + szH) ≤ st.limit
    · rw [do_alloc_success (by omega) hL] at hrun
      simp only [tumallocFresh] at hrun
      by_cases hb0 : st.brk = 0
      · rw [if_pos hb0] at hrun
        simp only [Res.ok.injEq, Prod.mk.injEq] at hrun
        exact absurd hrun.1.symm hz
      · rw [if_neg hb0] at hrun
        rcases hw : writeCell { st with brk := st.brk + align16 (s + szH) } st.brk (s, MAGIC)
          with _ | st1 <;> simp only [hw] at hrun
        · exact Res.noConfusion hrun
        · simp only [Res.ok.injEq, Prod.mk.injEq] at hrun
          rw [← hrun.1]
          omega
    · rw [do_alloc_fail (by omega) hL] at hrun
      simp only [tumallocFresh] at hrun
      rw [if_pos trivial] at hrun
      simp only [Res.ok.injEq, Prod.mk.injEq] at hrun
      exact absurd hrun.1.symm hz
  · rw [if_neg hh] at hrun
    exact tumallocLoop_aligned s st hbrk fuel2 st.head fuel1 l z st' hchain halign hrun

/-- C8 witness: growing a 16-byte block at payload address 32 to 24 bytes
allocates the fresh block at 64 and copies `min 16 24` bytes. -/
theorem turealloc_spec_witness :
    (32 : Nat) ≠ 0 ∧ (0 : Nat) < 24 ∧
    readCell (AllocState.mk [(16, 16, MAGIC)] [(32, 7), (33, 9)] 0 48 200) (32 - szH) =
      some (16, MAGIC) ∧
    turealloc 20 (AllocState.mk [(16, 16, MAGIC)] [(32, 7), (33, 9)] 0 48 200) 32 24 =
      Res.ok (64, memcpy
        (AllocState.mk [(16, 16, MAGIC), (48, 24, MAGIC)] [(32, 7), (33, 9)] 0 96 200)
        64 32 (min 16 24)) := by
  refine ⟨by decide, by decide, by decide, ?_⟩
  exact ((turealloc_spec 20 (AllocState.mk [(16, 16, MAGIC)] [(32, 7), (33, 9)] 0 48 200)
    32 24 16 MAGIC (by decide) (by decide) (by decide)).2 (by decide)).2 64
    (AllocState.mk [(16, 16, MAGIC), (48, 24, MAGIC)] [(32, 7), (33, 9)] 0 96 200)
    (by decide) (by decide)

/-- C6 witness: from a state with one aligned free node at 16 and break
48, `tumalloc 16` takes the fallback fresh path and returns 64, which is
16-byte aligned. -/
theorem tumalloc_returns_aligned_witness :
    (16 ∣ (AllocState.mk [(16, 16, 0)] [] 16 48 100).brk) ∧
    chainR (AllocState.mk [(16, 16, 0)] [] 16 48 100) 5 16 = some [16] ∧
    tumalloc 20 (AllocState.mk [(16, 16, 0)] [] 16 48 100) 16 =
      Res.ok (64, AllocState.mk [(16, 16, 0), (48, 16, MAGIC)] [] 16 80 100) ∧
    16 ∣ 64 := by
  refine ⟨by decide, by decide, by decide, ?_⟩
  exact tumalloc_returns_aligned 5 20 (AllocState.mk [(16, 16, 0)] [] 16 48 100) 16 64
    (AllocState.mk [(16, 16, 0), (48, 16, MAGIC)] [] 16 80 100) [16]
    (by decide) (by decide) (by decide) (by decide) (by decide) (by decide)

/-! ## Symbolic traces for the reuse and coalescing claims -/


theorem validCell_intro {st : AllocState} {a : Nat} (h1 : 16 ≤ a)
    (h2 : a + 16 ≤ st.brk) : validCell st a := ⟨h1, h2⟩

theorem find_prevLoop_null (st : AllocState) (block f : Nat) :
    find_prevLoop st block f 0 = Res.ok 0 := by
  cases f <;> simp [find_prevLoop]

theorem find_nextLoop_null (st : AllocState) (block_end f : Nat) :
    find_nextLoop st block_end f 0 = Res.ok 0 := by
  cases f <;> simp [find_nextLoop]

theorem tumalloc_empty_path (fuel : Nat) (st : AllocState) (s : Nat)
    (hh : st.head = 0) (hbrk : 16 ≤ st.brk)
    (hL : st.brk + align16 (s + szH) ≤ st.limit) :
    tumalloc fuel st s = Res.ok (st.brk + szH,
      { st with mem := storeCell st.mem st.brk (s, MAGIC),
                brk := st.brk + align16 (s + szH) }) := by
  have hx : szH = 16 := rfl
  have hal : s + szH ≤ align16 (s + szH) := align16_ge _
  simp only [tumalloc]
  rw [if_pos hh, do_alloc_success (by omega) hL]
  simp only [tumallocFresh]
  rw [if_neg (by omega)]
  have hv : validCell { st with brk := st.brk + align16 (s + szH) } st.brk :=
    validCell_intro (by omega) (by simp; omega)
  simp only [writeCell]
  rw [if_pos hv]

theorem tufree_single_block (fuel : Nat) (s B L : Nat) (hs : 0 < s) (hB : 32 ≤ B) :
    tufree (Nat.succ fuel) (AllocState.mk [(16, s, MAGIC)] [] 0 B L) 32 =
      Res.ok (AllocState.mk [(16, s, 0)] [] 16 B L) := by
  have hr : readCell (AllocState.mk [(16, s, MAGIC)] [] 0 B L) 16 = some (s, MAGIC) := by
    simp only [readCell]
    rw [if_pos (validCell_intro (by omega) (by simp; omega))]
    simp [lookupCell]
  have hw : writeCell (AllocState.mk [(16, s, MAGIC)] [] 0 B L) 16 (s, 0) =
      some (AllocState.mk [(16, s, 0)] [] 0 B L) := by
    simp only [writeCell]
    rw [if_pos (validCell_intro (by omega) (by simp; omega))]
    simp [storeCell]
  have hr3 : readCell (AllocState.mk [(16, s, 0)] [] 16 B L) 16 = some (s, 0) := by
    simp only [readCell]
    rw [if_pos (validCell_intro (by omega) (by simp; omega))]
    simp [lookupCell]
  have hfp : find_prev (Nat.succ fuel) (AllocState.mk [(16, s, 0)] [] 16 B L) 16 =
      Res.ok 0 := by
    simp only [find_prev, find_prevLoop, hr3]
    rw [if_neg (by omega : ¬ (16 : Nat) = 0), if_neg (by omega : ¬ 16 + s + szFB = 16)]
    exact find_prevLoop_null _ _ _
  have hfn : find_next (Nat.succ fuel) (AllocState.mk [(16, s, 0)] [] 16 B L) 16 =
      Res.ok 0 := by
    simp only [find_next, hr3, find_nextLoop]
    rw [if_neg (by omega : ¬ (16 : Nat) = 0), if_neg (by omega : ¬ (16 : Nat) = 16 + s + szFB)]
    exact find_nextLoop_null _ _ _
  have hco : coalesce (Nat.succ fuel) (AllocState.mk [(16, s, 0)] [] 16 B L) 16 =
      Res.ok (16, AllocState.mk [(16, s, 0)] [] 16 B L) := by
    simp [coalesce, hfp, hfn, coalesce_prev, coalesce_next]
  show tufreeHdr (Nat.succ fuel) (AllocState.mk [(16, s, MAGIC)] [] 0 B L) (32 - szH) =
    Res.ok (AllocState.mk [(16, s, 0)] [] 16 B L)
  rw [show (32 : Nat) - szH = 16 from rfl]
  simp only [tufreeHdr, hr]
  simp [hw, hco]

theorem tumalloc_reuse_step (fuel : Nat) (s s' B L : Nat) (hs' : 0 < s')
    (hfit : s' + 16 ≤ s) (hB : s + 32 ≤ B) :
    ∃ stf : AllocState,
      tumalloc (Nat.succ fuel) (AllocState.mk [(16, s, 0)] [] 16 B L) s' =
        Res.ok (32, stf) ∧ stf.brk = B := by
  have hx : szH = 16 := rfl
  have hfb : szFB = 16 := rfl
  have hr3 : readCell (AllocState.mk [(16, s, 0)] [] 16 B L) 16 = some (s, 0) := by
    simp only [readCell]
    rw [if_pos (validCell_intro (by omega) (by simp; omega))]
    simp [lookupCell]
  have hsp := split_eval (AllocState.mk [(16, s, 0)] [] 16 B L) 16 (s' + szH) s 0 hr3
  by_cases hcase : s < s' + szH + szFB
  · -- split fails: the whole block is removed and reused as-is
    have hs0 : split (AllocState.mk [(16, s, 0)] [] 16 B L) 16 (s' + szH) =
        Res.ok (0, AllocState.mk [(16, s, 0)] [] 16 B L) := hsp.1.mpr (by omega)
    have hrm : remove_free_block (Nat.succ fuel) (AllocState.mk [(16, s, 0)] [] 16 B L) 16 =
        Res.ok (AllocState.mk [(16, s, 0)] [] 0 B L) := by
      simp only [remove_free_block]
      rw [if_pos (by simp), hr3]
    have hwc : writeCell (AllocState.mk [(16, s, 0)] [] 0 B L) 16 (s', MAGIC) =
        some (AllocState.mk [(16, s', MAGIC)] [] 0 B L) := by
      simp only [writeCell]
      rw [if_pos (validCell_intro (by omega) (by simp; omega))]
      simp [storeCell]
    refine ⟨AllocState.mk [(16, s', MAGIC)] [] 0 B L, ?_, rfl⟩
    simp only [tumalloc]
    rw [if_neg (by simp)]
    simp only [tumallocLoop, hr3]
    rw [if_neg (by omega : ¬ (16 : Nat) = 0), if_pos (by omega : s' + szH ≤ s)]
    simp only [hs0, hrm, hwc]
    simp [hx]
  · -- split succeeds: the shrunk first piece is removed and reused
    push_neg at hcase
    have hv2 : validCell (AllocState.mk [(16, s, 0)] [] 16 B L) (16 + (s' + szH) + szFB) :=
      validCell_intro (by omega) (by simp; omega)
    have hs1 := hsp.2 (by omega) hv2
    have hmem : storeCell (storeCell [(16, s, 0)] (16 + (s' + szH) + szFB)
        (s - (s' + szH) - szFB, 0)) 16 (s' + szH, 0) =
        [(16, s' + szH, 0), (16 + (s' + szH) + szFB, s - (s' + szH) - szFB, 0)] := by
      simp [storeCell]
    rw [hmem] at hs1
    have hrS : readCell (AllocState.mk
        [(16, s' + szH, 0), (16 + (s' + szH) + szFB, s - (s' + szH) - szFB, 0)] [] 16 B L) 16 =
        some (s' + szH, 0) := by
      simp only [readCell]
      rw [if_pos (validCell_intro (by omega) (by simp; omega))]
      simp [lookupCell]
    have hrm : remove_free_block (Nat.succ fuel) (AllocState.mk
        [(16, s' + szH, 0), (16 + (s' + szH) + szFB, s - (s' + szH) - szFB, 0)] [] 16 B L) 16 =
        Res.ok (AllocState.mk
          [(16, s' + szH, 0), (16 + (s' + szH) + szFB, s - (s' + szH) - szFB, 0)] [] 0 B L) := by
      simp only [remove_free_block]
      rw [if_pos (by simp), hrS]
    have hwc : writeCell (AllocState.mk
        [(16, s' + szH, 0), (16 + (s' + szH) + szFB, s - (s' + szH) - szFB, 0)] [] 0 B L)
        16 (s', MAGIC) =
        some (AllocState.mk
          [(16, s', MAGIC), (16 + (s' + szH) + szFB, s - (s' + szH) - szFB, 0)] [] 0 B L) := by
      simp only [writeCell]
      rw [if_pos (validCell_intro (by omega) (by simp; omega))]
      simp [storeCell]
    refine ⟨AllocState.mk
      [(16, s', MAGIC), (16 + (s' + szH) + szFB, s - (s' + szH) - szFB, 0)] [] 0 B L, ?_, rfl⟩
    simp only [tumalloc]
    rw [if_neg (by simp)]
    simp only [tumallocLoop, hr3]
    rw [if_neg (by omega : ¬ (16 : Nat) = 0), if_pos (by omega : s' + szH ≤ s)]
    simp only [hs1]
    rw [if_neg (by omega : ¬ (16 : Nat) = 0)]
    simp only [hrm, hwc]
    rfl

/-- C1 (amended): after `p = allocate(s)` from the initial state and
`release(p)`, the freed node records only the payload size `s`, so a
subsequent `allocate(s2)` reuses the just-freed block exactly when
`s2 + sizeof(header) ≤ s`; for every such smaller request the same
address 32 is returned and the region break does not grow, on both the
split and the no-split reuse paths. -/
theorem tumalloc_reuse_after_release (fuel : Nat) (s s' L : Nat)
    (hs' : 0 < s') (hfit : s' + 16 ≤ s) (hL : 16 + align16 (s + 16) ≤ L) :
    ∃ st1 st2 stf : AllocState,
      tumalloc (Nat.succ fuel) (initState L) s = Res.ok (32, st1) ∧
      tufree (Nat.succ fuel) st1 32 = Res.ok st2 ∧
      tumalloc (Nat.succ fuel) st2 s' = Res.ok (32, stf) ∧
      stf.brk = st2.brk := by
  have hal : s + 16 ≤ align16 (s + 16) := align16_ge _
  obtain ⟨stf, hstep3, hbrkf⟩ :=
    tumalloc_reuse_step fuel s s' (16 + align16 (s + 16)) L hs' hfit (by omega)
  refine ⟨AllocState.mk [(16, s, MAGIC)] [] 0 (16 + align16 (s + 16)) L,
          AllocState.mk [(16, s, 0)] [] 16 (16 + align16 (s + 16)) L,
          stf, ?_, ?_, hstep3, hbrkf⟩
  · have h1 := tumalloc_empty_path (Nat.succ fuel) (initState L) s rfl
      (by simp [initState]) (by simp [initState]; exact hL)
    exact h1
  · exact tufree_single_block fuel s (16 + align16 (s + 16)) L (by omega) (by omega)

theorem tufree_higher_block (fuel : Nat) (s1 s2 B L : Nat) (h16 : 16 ≤ s1)
    (hs2 : 0 < s2) (hB : s1 + s2 + 48 ≤ B) :
    tufree (Nat.succ (Nat.succ fuel))
        (AllocState.mk [(16, s1, MAGIC), (s1 + 32, s2, MAGIC)] [] 0 B L) (s1 + 48) =
      Res.ok (AllocState.mk [(16, s1, MAGIC), (s1 + 32, s2, 0)] [] (s1 + 32) B L) := by
  have hfb : szFB = 16 := rfl
  have hr : readCell (AllocState.mk [(16, s1, MAGIC), (s1 + 32, s2, MAGIC)] [] 0 B L)
      (s1 + 32) = some (s2, MAGIC) := by
    simp only [readCell]
    rw [if_pos (validCell_intro (by omega) (by simp; omega))]
    simp only [lookupCell]
    rw [if_neg (by omega : ¬ s1 + 32 = 16)]
    simp
  have hw : writeCell (AllocState.mk [(16, s1, MAGIC), (s1 + 32, s2, MAGIC)] [] 0 B L)
      (s1 + 32) (s2, 0) =
      some (AllocState.mk [(16, s1, MAGIC), (s1 + 32, s2, 0)] [] 0 B L) := by
    simp only [writeCell]
    rw [if_pos (validCell_intro (by omega) (by simp; omega))]
    simp only [storeCell]
    rw [if_neg (by omega : ¬ s1 + 32 = 16)]
    simp
  have hr2 : readCell (AllocState.mk [(16, s1, MAGIC), (s1 + 32, s2, 0)] [] (s1 + 32) B L)
      (s1 + 32) = some (s2, 0) := by
    simp only [readCell]
    rw [if_pos (validCell_intro (by omega) (by simp; omega))]
    simp only [lookupCell]
    rw [if_neg (by omega : ¬ s1 + 32 = 16)]
    simp
  have hfp : find_prev (Nat.succ (Nat.succ fuel))
      (AllocState.mk [(16, s1, MAGIC), (s1 + 32, s2, 0)] [] (s1 + 32) B L) (s1 + 32) =
      Res.ok 0 := by
    simp only [find_prev, find_prevLoop, hr2]
    rw [if_neg (by omega : ¬ s1 + 32 = 0),
      if_neg (by omega : ¬ s1 + 32 + s2 + szFB = s1 + 32)]
    simp
  have hfn : find_next (Nat.succ (Nat.succ fuel))
      (AllocState.mk [(16, s1, MAGIC), (s1 + 32, s2, 0)] [] (s1 + 32) B L) (s1 + 32) =
      Res.ok 0 := by
    simp only [find_next, hr2, find_nextLoop]
    rw [if_neg (by omega : ¬ s1 + 32 = 0),
      if_neg (by omega : ¬ s1 + 32 = s1 + 32 + s2 + szFB)]
    simp
  have hco : coalesce (Nat.succ (Nat.succ fuel))
      (AllocState.mk [(16, s1, MAGIC), (s1 + 32, s2, 0)] [] (s1 + 32) B L) (s1 + 32) =
      Res.ok (s1 + 32, AllocState.mk [(16, s1, MAGIC), (s1 + 32, s2, 0)] [] (s1 + 32) B L) := by
    simp only [coalesce]
    rw [if_neg (by omega : ¬ s1 + 32 = 0)]
    rw [hfp, hfn]
    simp [coalesce_prev, coalesce_next]
  show tufreeHdr (Nat.succ (Nat.succ fuel))
      (AllocState.mk [(16, s1, MAGIC), (s1 + 32, s2, MAGIC)] [] 0 B L) (s1 + 48 - szH) =
    Res.ok (AllocState.mk [(16, s1, MAGIC), (s1 + 32, s2, 0)] [] (s1 + 32) B L)
  rw [show s1 + 48 - szH = s1 + 32 from rfl]
  simp only [tufreeHdr, hr]
  simp [hw, hco]

theorem tufree_lower_coalesces (fuel : Nat) (s1 s2 B L : Nat) (h16 : 16 ≤ s1)
    (hs2 : 0 < s2) (hB : s1 + s2 + 48 ≤ B) :
    tufree (Nat.succ (Nat.succ fuel))
        (AllocState.mk [(16, s1, MAGIC), (s1 + 32, s2, 0)] [] (s1 + 32) B L) 32 =
      Res.ok (AllocState.mk [(16, s1 + s2 + szFB, 0), (s1 + 32, s2, 0)] [] 16 B L) := by
  have hfb : szFB = 16 := rfl
  have hr : readCell (AllocState.mk [(16, s1, MAGIC), (s1 + 32, s2, 0)] [] (s1 + 32) B L) 16 =
      some (s1, MAGIC) := by
    simp only [readCell]
    rw [if_pos (validCell_intro (by omega) (by simp; omega))]
    simp [lookupCell]
  have hw : writeCell (AllocState.mk [(16, s1, MAGIC), (s1 + 32, s2, 0)] [] (s1 + 32) B L)
      16 (s1, s1 + 32) =
      some (AllocState.mk [(16, s1, s1 + 32), (s1 + 32, s2, 0)] [] (s1 + 32) B L) := by
    simp only [writeCell]
    rw [if_pos (validCell_intro (by omega) (by simp; omega))]
    simp [storeCell]
  have hr16 : readCell (AllocState.mk [(16, s1, s1 + 32), (s1 + 32, s2, 0)] [] 16 B L) 16 =
      some (s1, s1 + 32) := by
    simp only [readCell]
    rw [if_pos (validCell_intro (by omega) (by simp; omega))]
    simp [lookupCell]
  have hr32 : readCell (AllocState.mk [(16, s1, s1 + 32), (s1 + 32, s2, 0)] [] 16 B L)
      (s1 + 32) = some (s2, 0) := by
    simp only [readCell]
    rw [if_pos (validCell_intro (by omega) (by simp; omega))]
    simp only [lookupCell]
    rw [if_neg (by omega : ¬ s1 + 32 = 16)]
    simp
  have hfp : find_prev (Nat.succ (Nat.succ fuel))
      (AllocState.mk [(16, s1, s1 + 32), (s1 + 32, s2, 0)] [] 16 B L) 16 = Res.ok 0 := by
    simp only [find_prev, find_prevLoop, hr16, hr32]
    rw [if_neg (by omega : ¬ (16 : Nat) = 0),
      if_neg (by omega : ¬ 16 + s1 + szFB = 16),
      if_neg (by omega : ¬ s1 + 32 = 0),
      if_neg (by omega : ¬ s1 + 32 + s2 + szFB = 16)]
    exact find_prevLoop_null _ _ _
  have hfn : find_next (Nat.succ (Nat.succ fuel))
      (AllocState.mk [(16, s1, s1 + 32), (s1 + 32, s2, 0)] [] 16 B L) 16 =
      Res.ok (s1 + 32) := by
    simp only [find_next, hr16, find_nextLoop]
    rw [if_neg (by omega : ¬ (16 : Nat) = 0),
      if_neg (by omega : ¬ (16 : Nat) = 16 + s1 + szFB),
      if_neg (by omega : ¬ s1 + 32 = 0),
      if_pos (by omega : s1 + 32 = 16 + s1 + szFB)]
  have hw0 : writeW0 (AllocState.mk [(16, s1, s1 + 32), (s1 + 32, s2, 0)] [] 16 B L) 16
      (s1 + s2 + szFB) =
      some (AllocState.mk [(16, s1 + s2 + szFB, s1 + 32), (s1 + 32, s2, 0)] [] 16 B L) := by
    simp only [writeW0, hr16, writeCell]
    rw [if_pos (validCell_intro (by omega) (by simp; omega))]
    simp [storeCell]
  have hr16b : readCell (AllocState.mk
      [(16, s1 + s2 + szFB, s1 + 32), (s1 + 32, s2, 0)] [] 16 B L) 16 =
      some (s1 + s2 + szFB, s1 + 32) := by
    simp only [readCell]
    rw [if_pos (validCell_intro (by omega) (by simp; omega))]
    simp [lookupCell]
  have hw1 : writeW1 (AllocState.mk
      [(16, s1 + s2 + szFB, s1 + 32), (s1 + 32, s2, 0)] [] 16 B L) 16 0 =
      some (AllocState.mk [(16, s1 + s2 + szFB, 0), (s1 + 32, s2, 0)] [] 16 B L) := by
    simp only [writeW1, hr16b, writeCell]
    rw [if_pos (validCell_intro (by omega) (by simp; omega))]
    simp [storeCell]
  have hcn : coalesce_next (AllocState.mk [(16, s1, s1 + 32), (s1 + 32, s2, 0)] [] 16 B L)
      16 (s1 + 32) =
      Res.ok (16, AllocState.mk [(16, s1 + s2 + szFB, 0), (s1 + 32, s2, 0)] [] 16 B L) := by
    simp only [coalesce_next, hr16, hr32]
    rw [if_neg (by omega : ¬ s1 + 32 = 0), if_pos (by omega : 16 + s1 + szFB = s1 + 32)]
    simp only [hw0, hw1]
  have hco : coalesce (Nat.succ (Nat.succ fuel))
      (AllocState.mk [(16, s1, s1 + 32), (s1 + 32, s2, 0)] [] 16 B L) 16 =
      Res.ok (16, AllocState.mk [(16, s1 + s2 + szFB, 0), (s1 + 32, s2, 0)] [] 16 B L) := by
    simp only [coalesce]
    rw [if_neg (by omega : ¬ (16 : Nat) = 0)]
    rw [hfp, hfn]
    simp only [coalesce_prev, if_true]
    simp only [hcn]
  show tufreeHdr (Nat.succ (Nat.succ fuel))
      (AllocState.mk [(16, s1, MAGIC), (s1 + 32, s2, 0)] [] (s1 + 32) B L) (32 - szH) =
    Res.ok (AllocState.mk [(16, s1 + s2 + szFB, 0), (s1 + 32, s2, 0)] [] 16 B L)
  rw [show (32 : Nat) - szH = 16 from rfl]
  simp only [tufreeHdr, hr]
  simp [hw, hco]

theorem chainR_null (st : AllocState) (f : Nat) : chainR st f 0 = some [] := by
  cases f <;> simp [chainR]

theorem tumalloc_exact_fit (fuel : Nat) (s1 s2 B L : Nat) (h16 : 16 ≤ s1)
    (hs2 : 0 < s2) (hB : s1 + s2 + 48 ≤ B) :
    tumalloc (Nat.succ fuel)
        (AllocState.mk [(16, s1 + s2 + szFB, 0), (s1 + 32, s2, 0)] [] 16 B L) (s1 + s2) =
      Res.ok (32, AllocState.mk [(16, s1 + s2, MAGIC), (s1 + 32, s2, 0)] [] 0 B L) := by
  have hsz : szH = 16 := rfl
  have hfb : szFB = 16 := rfl
  have hr : readCell (AllocState.mk [(16, s1 + s2 + szFB, 0), (s1 + 32, s2, 0)] [] 16 B L)
      16 = some (s1 + s2 + szFB, 0) := by
    simp only [readCell]
    rw [if_pos (validCell_intro (by omega) (by simp; omega))]
    simp [lookupCell]
  have hsp := (split_eval (AllocState.mk [(16, s1 + s2 + szFB, 0), (s1 + 32, s2, 0)] [] 16 B L)
    16 (s1 + s2 + szH) (s1 + s2 + szFB) 0 hr).1.mpr (by omega)
  have hrm : remove_free_block (Nat.succ fuel)
      (AllocState.mk [(16, s1 + s2 + szFB, 0), (s1 + 32, s2, 0)] [] 16 B L) 16 =
      Res.ok (AllocState.mk [(16, s1 + s2 + szFB, 0), (s1 + 32, s2, 0)] [] 0 B L) := by
    simp only [remove_free_block]
    rw [if_pos (by simp), hr]
  have hwc : writeCell (AllocState.mk [(16, s1 + s2 + szFB, 0), (s1 + 32, s2, 0)] [] 0 B L)
      16 (s1 + s2, MAGIC) =
      some (AllocState.mk [(16, s1 + s2, MAGIC), (s1 + 32, s2, 0)] [] 0 B L) := by
    simp only [writeCell]
    rw [if_pos (validCell_intro (by omega) (by simp; omega))]
    simp [storeCell]
  simp only [tumalloc]
  rw [if_neg (by simp)]
  simp only [tumallocLoop, hr]
  rw [if_neg (by omega : ¬ (16 : Nat) = 0), if_pos (by omega : s1 + s2 + szH ≤ s1 + s2 + szFB)]
  simp only [hsp, hrm, hwc]
  simp [hsz]

/-- C5 (amended): two blocks allocated back to back (address-adjacent by
the allocator's own arithmetic when the first payload size is a multiple
of 16), released higher-address block first and lower one second, leave a
single free-list entry at 16 whose recorded size is
`s1 + s2 + sizeof(header)`; an exact-fit `allocate(s1 + s2)` is then
satisfied from this merged block at the same address 32 with no region
growth.  (Released in the opposite order the stale head entry remains,
see the counterexample.) -/
theorem coalesce_adjacent_higher_first (fuel : Nat) (s1 s2 L : Nat)
    (hdvd : 16 ∣ s1) (hs1 : 0 < s1) (hs2 : 0 < s2)
    (hL : s1 + 32 + align16 (s2 + 16) ≤ L) :
    ∃ stA stB stC stD stE : AllocState,
      tumalloc (Nat.succ (Nat.succ fuel)) (initState L) s1 = Res.ok (32, stA) ∧
      tumalloc (Nat.succ (Nat.succ fuel)) stA s2 = Res.ok (s1 + 48, stB) ∧
      tufree (Nat.succ (Nat.succ fuel)) stB (s1 + 48) = Res.ok stC ∧
      tufree (Nat.succ (Nat.succ fuel)) stC 32 = Res.ok stD ∧
      stD.head = 16 ∧
      chainR stD (Nat.succ fuel) stD.head = some [16] ∧
      lookupCell stD.mem 16 = (s1 + s2 + 16, 0) ∧
      tumalloc (Nat.succ (Nat.succ fuel)) stD (s1 + s2) = Res.ok (32, stE) ∧
      stE.brk = stD.brk := by
  have h16 : 16 ≤ s1 := Nat.le_of_dvd hs1 hdvd
  have ha1 : align16 (s1 + 16) = s1 + 16 := align16_of_dvd (Nat.dvd_add hdvd (dvd_refl 16))
  have ha2 : s2 + 16 ≤ align16 (s2 + 16) := align16_ge _
  have hsz : szH = 16 := rfl
  have hB2 : s1 + s2 + 48 ≤ s1 + 32 + align16 (s2 + 16) := by omega
  have h1 := tumalloc_empty_path (Nat.succ (Nat.succ fuel)) (initState L) s1 rfl
    (by simp [initState])
    (by simp only [initState]; rw [hsz, ha1]; omega)
  dsimp only [initState, storeCell] at h1
  rw [show (16 : Nat) + align16 (s1 + szH) = s1 + 32 from by rw [hsz, ha1]; omega] at h1
  rw [show (16 : Nat) + szH = 32 from rfl] at h1
  have h2 := tumalloc_empty_path (Nat.succ (Nat.succ fuel))
    (AllocState.mk [(16, s1, MAGIC)] [] 0 (s1 + 32) L) s2 rfl (by simp)
    (by rw [hsz]; exact hL)
  rw [show storeCell [(16, s1, MAGIC)] (s1 + 32) (s2, MAGIC) =
    [(16, s1, MAGIC), (s1 + 32, s2, MAGIC)] from by simp [storeCell]] at h2
  rw [show s1 + 32 + szH = s1 + 48 from by omega] at h2
  rw [show align16 (s2 + szH) = align16 (s2 + 16) from by rw [hsz]] at h2
  have h3 := tufree_higher_block fuel s1 s2 (s1 + 32 + align16 (s2 + 16)) L h16 hs2 hB2
  have h4 := tufree_lower_coalesces fuel s1 s2 (s1 + 32 + align16 (s2 + 16)) L h16 hs2 hB2
  have h5 := tumalloc_exact_fit (Nat.succ fuel) s1 s2 (s1 + 32 + align16 (s2 + 16)) L
    h16 hs2 hB2
  have hrD : readCell (AllocState.mk [(16, s1 + s2 + szFB, 0), (s1 + 32, s2, 0)] []
      16 (s1 + 32 + align16 (s2 + 16)) L) 16 = some (s1 + s2 + szFB, 0) := by
    simp only [readCell]
    rw [if_pos (validCell_intro (by omega) (by simp; omega))]
    simp [lookupCell]
  refine ⟨AllocState.mk [(16, s1, MAGIC)] [] 0 (s1 + 32) L,
          AllocState.mk [(16, s1, MAGIC), (s1 + 32, s2, MAGIC)] [] 0
            (s1 + 32 + align16 (s2 + 16)) L,
          AllocState.mk [(16, s1, MAGIC), (s1 + 32, s2, 0)] [] (s1 + 32)
            (s1 + 32 + align16 (s2 + 16)) L,
          AllocState.mk [(16, s1 + s2 + szFB, 0), (s1 + 32, s2, 0)] [] 16
            (s1 + 32 + align16 (s2 + 16)) L,
          AllocState.mk [(16, s1 + s2, MAGIC), (s1 + 32, s2, 0)] [] 0
            (s1 + 32 + align16 (s2 + 16)) L,
          h1, h2, h3, h4, rfl, ?_, ?_, h5, rfl⟩
  · simp only [chainR, hrD]
    rw [if_neg (by omega : ¬ (16 : Nat) = 0)]
    simp [chainR_null]
  · simp [lookupCell]
    rfl

/-- C1 (amended) witness: `allocate(48)`, `release`, then `allocate(16)`
returns the same address with no break growth. -/
theorem tumalloc_reuse_after_release_witness :
    (0 : Nat) < 16 ∧ 16 + 16 ≤ 48 ∧ 16 + align16 (48 + 16) ≤ 200 ∧
    (∃ st1 st2 stf : AllocState,
      tumalloc (Nat.succ 19) (initState 200) 48 = Res.ok (32, st1) ∧
      tufree (Nat.succ 19) st1 32 = Res.ok st2 ∧
      tumalloc (Nat.succ 19) st2 16 = Res.ok (32, stf) ∧
      stf.brk = st2.brk) := by
  refine ⟨by decide, by decide, by decide, ?_⟩
  exact tumalloc_reuse_after_release 19 48 16 200 (by decide) (by decide) (by decide)

/-- C5 (amended) witness: two 16-byte blocks, higher released first, merge
into one 48-byte entry that satisfies `allocate(32)` with no growth. -/
theorem coalesce_adjacent_higher_first_witness :
    (16 ∣ (16 : Nat)) ∧ (0 : Nat) < 16 ∧ 16 + 32 + align16 (16 + 16) ≤ 200 ∧
    (∃ stA stB stC stD stE : AllocState,
      tumalloc (Nat.succ (Nat.succ 18)) (initState 200) 16 = Res.ok (32, stA) ∧
      tumalloc (Nat.succ (Nat.succ 18)) stA 16 = Res.ok (16 + 48, stB) ∧
      tufree (Nat.succ (Nat.succ 18)) stB (16 + 48) = Res.ok stC ∧
      tufree (Nat.succ (Nat.succ 18)) stC 32 = Res.ok stD ∧
      stD.head = 16 ∧
      chainR stD (Nat.succ 18) stD.head = some [16] ∧
      lookupCell stD.mem 16 = (16 + 16 + 16, 0) ∧
      tumalloc (Nat.succ (Nat.succ 18)) stD (16 + 16) = Res.ok (32, stE) ∧
      stE.brk = stD.brk) := by
  refine ⟨by decide, by decide, by decide, ?_⟩
  exact coalesce_adjacent_higher_first 18 16 16 200 (by decide) (by decide) (by decide)
    (by decide)
